import Mathlib

/-!
Verification development for the LyricFlow Creator frame-synthesis and
time-synchronization engine.

The TypeScript source is shallowly embedded: strings are `List Char`,
JS numbers are `ℚ` (exact rational arithmetic), stateful browser code is
modelled as explicit state-passing functions.  Each definition mirrors the
corresponding function in `src/index.tsx` / `src/App.tsx` /
`src/unnamed/part_000` (the renderer module).
-/

namespace LyricFlow

/-! ## JS string primitives (modelled over List Char) -/

/-- The whitespace characters removed by JS String.trim (ASCII subset). -/
def isJsSpace (c : Char) : Bool :=
  c == ' ' || c == '\t' || c == '\n' || c == '\r' || c == '\x0b' || c == '\x0c'

/-- JS String.trim: drop whitespace from both ends. -/
def jsTrim (cs : List Char) : List Char :=
  ((cs.dropWhile isJsSpace).reverse.dropWhile isJsSpace).reverse

/-- JS String.split with a single-character separator: splits at every
occurrence, keeping empty pieces (`"".split(c) = [""]`). -/
def splitOnChar (sep : Char) : List Char → List (List Char)
  | [] => [[]]
  | c :: cs =>
    if c = sep then [] :: splitOnChar sep cs
    else
      match splitOnChar sep cs with
      | [] => [[c]]
      | w :: ws => (c :: w) :: ws

/-- Join pieces with a single separator character (inverse of `splitOnChar`). -/
def joinWithChar (sep : Char) : List (List Char) → List Char
  | [] => []
  | w :: ws =>
    match ws with
    | [] => w
    | _ :: _ => w ++ sep :: joinWithChar sep ws

/-! ## LRC parser (`parseLrc` in src/index.tsx lines 41-72) -/

/-- One timestamped lyric cue (`LyricLine` in src/types.ts). -/
structure LyricLine where
  time : ℚ
  text : List Char
deriving DecidableEq, Repr

/-- Numeric value of a decimal digit character. -/
def digitVal (c : Char) : ℕ := c.toNat - '0'.toNat

/-- The captured groups of one timestamp-tag match of the regex
`\[(\d\d):(\d\d)[.:](\d\d\d?)\]`. -/
structure TagParts where
  minutes : ℕ
  seconds : ℕ
  fracValue : ℕ
  fracDigits : ℕ
deriving DecidableEq, Repr

/-- Match the fractional part of the tag: greedy `\d` two-or-three times
followed by a literal closing bracket (three digits are tried first, as the
JS regex engine does).  Returns (value, digit count, rest after the bracket). -/
def matchFrac : List Char → Option (ℕ × ℕ × List Char)
  | e :: f :: g :: rest =>
    if e.isDigit && f.isDigit then
      if g.isDigit then
        match rest with
        | ']' :: tail => some (100 * digitVal e + 10 * digitVal f + digitVal g, 3, tail)
        | _ => none
      else if g = ']' then some (10 * digitVal e + digitVal f, 2, rest)
      else none
    else none
  | _ => none

/-- Try to match the timestamp tag at the head of the character list. -/
def matchTagAt : List Char → Option (TagParts × List Char)
  | '[' :: m1 :: m2 :: ':' :: s1 :: s2 :: sep :: rest =>
    if m1.isDigit && m2.isDigit && s1.isDigit && s2.isDigit && (sep == '.' || sep == ':') then
      match matchFrac rest with
      | some (v, n, tail) =>
        some (⟨10 * digitVal m1 + digitVal m2, 10 * digitVal s1 + digitVal s2, v, n⟩, tail)
      | none => none
    else none
  | _ => none

/-- Leftmost match of the timestamp tag in a line (JS `regexp.exec`):
returns the text before the match, the captured groups, and the text after. -/
def execTag : List Char → Option (List Char × TagParts × List Char)
  | [] => none
  | c :: cs =>
    match matchTagAt (c :: cs) with
    | some (tp, rest) => some ([], tp, rest)
    | none =>
      match execTag cs with
      | some (bef, tp, rest) => some (c :: bef, tp, rest)
      | none => none

/-- Total time in seconds of a tag:
`minutes * 60 + seconds + milliseconds / msDivisor` with
`msDivisor = 1000` for a three-digit fractional group and `100` otherwise. -/
def tagTime (tp : TagParts) : ℚ :=
  tp.minutes * 60 + tp.seconds +
    (tp.fracValue : ℚ) / (if tp.fracDigits = 3 then 1000 else 100)

/-- Body of the per-line step of `parseLrc`: a line contributes a cue when
the tag regex matches and the line with the first match removed trims to
non-empty text. -/
def lineToCue (line : List Char) : Option LyricLine :=
  match execTag line with
  | none => none
  | some (bef, tp, aft) =>
    let text := jsTrim (bef ++ aft)
    if text = [] then none else some ⟨tagTime tp, text⟩

/-- Comparator used by the final sort (`(a, b) => a.time - b.time`). -/
def lrcLe (a b : LyricLine) : Bool := decide (a.time ≤ b.time)

/-- `parseLrc` (src/index.tsx lines 41-72): split on newlines, convert each
matching line to a cue, and stable-sort the cues by time. -/
def parseLrc (content : List Char) : List LyricLine :=
  ((splitOnChar '\n' content).filterMap lineToCue).mergeSort lrcLe

/-! ## Active-index lookup (the scan in `animate`, src/index.tsx lines 578-585
and src/App.tsx lines 111-118) -/

/-- The loop body: `activeIndex` starts at 0 and is advanced to `i` while
`time >= lyrics[i].time`; the scan stops at the first cue in the future.
The JS value is a number, modelled as `ℤ` so that the claimed `-1` sentinel
is expressible. -/
def activeIndexAux (time : ℚ) : List LyricLine → ℤ → ℤ → ℤ
  | [], _, acc => acc
  | l :: ls, i, acc =>
    if l.time ≤ time then activeIndexAux time ls (i + 1) i else acc

/-- `activeIndex`: index of the cue the playhead is on, per the `animate`
loop (`let activeIndex = 0; for ... if (time >= lyrics[i].time) activeIndex = i;
else break`). -/
def activeIndex (time : ℚ) (lyrics : List LyricLine) : ℤ :=
  activeIndexAux time lyrics 0 0

/-! ## Scroll interpolator (the snap logic in `animate`, src/index.tsx
lines 587-597 and src/App.tsx lines 120-134) -/

/-- One tick of the snappy smooth-scroll logic. -/
def scrollStep (activeIdx smoothIndex : ℚ) : ℚ :=
  let diff := activeIdx - smoothIndex
  if |diff| > 10 then activeIdx
  else if |diff| < 0.001 then activeIdx
  else smoothIndex + diff * 0.1

/-- Iterating the tick against a constant target `activeIdx`, starting
from `smoothIndex = start`. -/
def scrollIter (activeIdx start : ℚ) : ℕ → ℚ
  | 0 => start
  | n + 1 => scrollStep activeIdx (scrollIter activeIdx start n)

/-! ## Greedy word wrap (`getWrappedLines`, src/index.tsx lines 118-135 and
src/unnamed/part_000 lines 48-65).  The canvas text-measurement function is
abstracted as `measure : List Char → ℚ`. -/

/-- The wrap loop: try to append the next word to the current line; if the
measured candidate is not below `maxWidth`, emit the current line and start a
new one with the word. -/
def wrapLoop (measure : List Char → ℚ) (maxWidth : ℚ) :
    List (List Char) → List Char → List (List Char) → List (List Char)
  | [], currentLine, lines => lines ++ [currentLine]
  | word :: ws, currentLine, lines =>
    if measure (currentLine ++ ' ' :: word) < maxWidth then
      wrapLoop measure maxWidth ws (currentLine ++ ' ' :: word) lines
    else
      wrapLoop measure maxWidth ws word (lines ++ [currentLine])

/-- `getWrappedLines(ctx, text, maxWidth)`: split on spaces, seed the current
line with the first word, then run the greedy loop. -/
def getWrappedLines (measure : List Char → ℚ) (text : List Char) (maxWidth : ℚ) :
    List (List Char) :=
  match splitOnChar ' ' text with
  | [] => []
  | w :: ws => wrapLoop measure maxWidth ws w []

/-! ## Colour helpers (`hexToRgb`, `interpolateColor`, src/index.tsx
lines 92-115) -/

/-- An RGB triple as produced by `hexToRgb` / rendered by `rgb(r, g, b)`. -/
structure RGB where
  r : ℤ
  g : ℤ
  b : ℤ
deriving DecidableEq, Repr

/-- Hex digit test of the character class `[a-f\d]` (case-insensitive). -/
def isHexChar (c : Char) : Bool :=
  c.isDigit || ('a' ≤ c && c ≤ 'f') || ('A' ≤ c && c ≤ 'F')

/-- Value of one hex digit. -/
def hexDigitVal (c : Char) : ℕ :=
  if c.isDigit then c.toNat - '0'.toNat
  else if 'a' ≤ c && c ≤ 'f' then c.toNat - 'a'.toNat + 10
  else if 'A' ≤ c && c ≤ 'F' then c.toNat - 'A'.toNat + 10
  else 0

/-- Value of a two-hex-digit group (`parseInt(.., 16)`). -/
def hexPairVal (a b : Char) : ℤ := (16 * hexDigitVal a + hexDigitVal b : ℕ)

/-- The shorthand-expansion step: `#abc`/`abc` becomes `aabbcc` (the
replacement drops the hash), anything else is left alone. -/
def expandShorthand (cs : List Char) : List Char :=
  match cs with
  | ['#', a, b, c] => if isHexChar a && isHexChar b && isHexChar c then [a, a, b, b, c, c] else cs
  | [a, b, c] => if isHexChar a && isHexChar b && isHexChar c then [a, a, b, b, c, c] else cs
  | _ => cs

/-- `hexToRgb`: accepts 3- or 6-digit hex with optional hash; anything
invalid defaults to white (255, 255, 255). -/
def hexToRgb (hex : List Char) : RGB :=
  match expandShorthand hex with
  | ['#', a, b, c, d, e, f] =>
    if isHexChar a && isHexChar b && isHexChar c && isHexChar d && isHexChar e && isHexChar f
    then ⟨hexPairVal a b, hexPairVal c d, hexPairVal e f⟩ else ⟨255, 255, 255⟩
  | [a, b, c, d, e, f] =>
    if isHexChar a && isHexChar b && isHexChar c && isHexChar d && isHexChar e && isHexChar f
    then ⟨hexPairVal a b, hexPairVal c d, hexPairVal e f⟩ else ⟨255, 255, 255⟩
  | _ => ⟨255, 255, 255⟩

/-- JS `Math.round`: round half toward positive infinity. -/
def jsRound (q : ℚ) : ℤ := ⌊q + 1/2⌋

/-- `interpolateColor`: clamp the factor to [0, 1] and blend each channel
linearly, rounding to the nearest integer. -/
def interpolateColor (color1 color2 : List Char) (factor : ℚ) : RGB :=
  let c1 := hexToRgb color1
  let c2 := hexToRgb color2
  let f := max 0 (min 1 factor)
  ⟨jsRound ((c1.r : ℚ) + ((c2.r : ℚ) - (c1.r : ℚ)) * f),
   jsRound ((c1.g : ℚ) + ((c2.g : ℚ) - (c1.g : ℚ)) * f),
   jsRound ((c1.b : ℚ) + ((c2.b : ℚ) - (c1.b : ℚ)) * f)⟩

/-! ## Settings (src/types.ts `AppSettings`) -/

structure AppSettings where
  primaryColor : List Char
  secondaryColor : List Char
  backgroundColor : List Char
  fontSize : ℚ
  glowIntensity : ℚ
  lyricsXOffset : ℚ
  introDuration : ℚ
  songTitle : List Char
  videoWidth : ℚ
  videoHeight : ℚ
  bokehEnabled : Bool
  bokehAutoColor : Bool
  bokehColor : List Char
  bokehAutoSize : Bool
  bokehScale : ℚ
deriving DecidableEq, Repr

/-- `DEFAULT_SETTINGS` from src/index.tsx lines 445-463. -/
def DEFAULT_SETTINGS : AppSettings where
  primaryColor := "#38bdf8".toList
  secondaryColor := "#94a3b8".toList
  backgroundColor := "#0f172a".toList
  fontSize := 42
  glowIntensity := 20
  lyricsXOffset := 45
  introDuration := 3
  songTitle := []
  videoWidth := 1920
  videoHeight := 1080
  bokehEnabled := false
  bokehAutoColor := true
  bokehColor := "#38bdf8".toList
  bokehAutoSize := true
  bokehScale := 50

/-! ## Per-line styling of the lyric stack (`renderFrame`, src/index.tsx
lines 372-424).  `cosPi` stands for the host function `d ↦ Math.cos(Math.PI * d)`
used by the cosine ease; the colour is recorded as the RGB value the canvas
renders (the source stores either the secondary hex string or an
`rgb(...)` string). -/

structure LineStyle where
  scale : ℚ
  color : RGB
  alpha : ℚ
  blur : ℚ
  fontWeight : ℕ
  glowBlur : ℚ
  skipped : Bool
deriving DecidableEq, Repr

/-- Style computed for the cue at index `i` when the smoothed scroll position
is `smoothActiveIndex` and the global lyric fade factor is `lyricsOpacity`. -/
def lineStyle (cosPi : ℚ → ℚ) (settings : AppSettings) (i : ℕ)
    (smoothActiveIndex lyricsOpacity : ℚ) : LineStyle :=
  let distance : ℚ := (i : ℚ) - smoothActiveIndex
  let absDist := |distance|
  let scale : ℚ := if absDist < 1 then 1 + 0.15 * ((1 + cosPi absDist) / 2) else 1
  let color : RGB :=
    if absDist < 0.6 then
      interpolateColor settings.primaryColor settings.secondaryColor (absDist * 1.66)
    else hexToRgb settings.secondaryColor
  let alpha0 : ℚ := if absDist > 2 then max 0 (1 - (absDist - 2) * 0.4) else 1
  let blur : ℚ := if absDist > 1.2 then (absDist - 1.2) * 2 else 0
  let alpha := alpha0 * lyricsOpacity
  { scale := scale
    color := color
    alpha := alpha
    blur := blur
    fontWeight := if absDist < 0.4 then 700 else 600
    glowBlur := if absDist < 0.4 then settings.glowIntensity * (1 - absDist / 0.4) else 0
    skipped := decide (alpha ≤ 0.01) }

/-! ## Bokeh particle generator (`drawBokeh`, src/index.tsx lines 189-257 and
src/unnamed/part_000 lines 119-198).  The host trigonometric functions are
passed in as pure parameters `sin`/`cos`; everything else is arithmetic in the
arguments, with no randomness source. -/

/-- Truncation toward zero, as JS number-to-integer conversion does. -/
def ratTrunc (q : ℚ) : ℤ := if 0 ≤ q then ⌊q⌋ else -⌊-q⌋

/-- JS remainder operator `%` on numbers (sign follows the dividend). -/
def jsMod (a b : ℚ) : ℚ := a - b * (ratTrunc (a / b) : ℚ)

/-- The colour of one bokeh spot: a time-cycled hue in auto-colour mode, the
configured fixed colour otherwise; `alpha` is the gradient's centre opacity. -/
inductive BokehColor where
  | autoHue (hue : ℚ) (alpha : ℚ)
  | fixedRgb (rgb : RGB) (alpha : ℚ)
deriving DecidableEq, Repr

/-- The draw parameters of one bokeh particle. -/
structure BokehParticle where
  x : ℚ
  y : ℚ
  radius : ℚ
  color : BokehColor
deriving DecidableEq, Repr

/-- Parameters of particle `i` of `drawBokeh`. -/
def bokehParticle (sin cos : ℚ → ℚ) (width height time : ℚ) (settings : AppSettings)
    (i : ℕ) : BokehParticle :=
  let randomBase : ℕ := (i * 1337) % 1000
  let speed : ℚ := 0.0002 + ((randomBase % 100 : ℕ) : ℚ) * 0.00001
  let t : ℚ := time * speed + (randomBase : ℚ)
  let side : ℚ := if i % 2 = 0 then -1 else 1
  let xBase := width / 2 + (width / 2.5) * side
  let xOffset := sin t * (width * 0.2)
  let x := xBase + xOffset
  let yBase := height * (0.2 + (((randomBase % 10 : ℕ) : ℚ) / 10) * 0.8)
  let yOffset := cos (t * 1.3) * (height * 0.15)
  let y := yBase + yOffset
  let radius : ℚ :=
    if settings.bokehAutoSize then 150 + sin (t * 2) * 80 + ((randomBase % 100 : ℕ) : ℚ)
    else (50 + settings.bokehScale * 4) + sin (t * 3) * 20
  let alpha : ℚ := 0.15 + sin (t * 1.7) * 0.05
  let color :=
    if settings.bokehAutoColor then BokehColor.autoHue (jsMod (t * 50 + (randomBase : ℚ)) 360) alpha
    else BokehColor.fixedRgb (hexToRgb settings.bokehColor) alpha
  { x := x, y := y, radius := radius, color := color }

/-- `drawBokeh`: exactly `particleCount = 15` particles, each a pure function
of its index and the arguments. -/
def drawBokeh (sin cos : ℚ → ℚ) (width height time : ℚ) (settings : AppSettings) :
    List BokehParticle :=
  (List.range 15).map (bokehParticle sin cos width height time settings)

/-! ## Recording session controller (src/index.tsx lines 644-753, with the
UI boundary of the Record button at lines 778-794).  Browser objects are
modelled by the observable flags the claims are about. -/

inductive Phase where
  | idle
  | intro
  | recording
deriving DecidableEq, Repr

/-- Controller state: React state plus the refs touched by the recording
logic. -/
structure RecState where
  phase : Phase
  isRecording : Bool
  isPlaying : Bool
  hasAudio : Bool
  lyricsCount : ℕ
  smoothIndex : ℚ
  oscRunning : Bool
  recorderActive : Bool
  audioTime : ℚ
  audioPaused : Bool
  hasDownloadUrl : Bool
  alerted : Bool
deriving DecidableEq, Repr

/-- Environment facts that decide which steps of `startRecording` fail. -/
structure RecEnv where
  hasCanvas : Bool
  ctxSuspended : Bool
  resumeFails : Bool
  recorderFails : Bool
deriving DecidableEq, Repr

/-- `startRecording` (src/index.tsx lines 644-738).  Step numbering follows
the source comments:
1-2: create the AudioContext and resume it if suspended — a resume failure is
     caught and only logged (`catch (e) { console.error(...) }`), so it has no
     effect on the rest of the attempt;
3-4: destination and media-element source nodes (errors swallowed likewise);
5:   create and start the silent keep-alive oscillator;
6-7: build the streams and the MediaRecorder inside `try { ... }`: on failure
     the catch only logs and alerts, on success recording state is set and the
     intro phase begins. -/
def startRecording (env : RecEnv) (s : RecState) : RecState :=
  if !env.hasCanvas || !s.hasAudio then s
  else
    let s1 := { s with oscRunning := true }
    if env.recorderFails then { s1 with alerted := true }
    else
      { s1 with
        recorderActive := true
        isRecording := true
        hasDownloadUrl := false
        audioTime := 0
        audioPaused := true
        smoothIndex := 0
        phase := Phase.intro }

/-- `stopRecording` together with the recorder's `onstop` handler
(src/index.tsx lines 700-719 and 740-745): only acts when a recorder is
active; finalizes the artifact, returns to idle and releases the silence
oscillator. -/
def stopRecording (s : RecState) : RecState :=
  if s.recorderActive then
    { s with
      recorderActive := false
      hasDownloadUrl := true
      phase := Phase.idle
      isRecording := false
      isPlaying := false
      oscRunning := false
      audioPaused := true }
  else s

/-- `handleIntroComplete` (src/index.tsx lines 619-625), fired by the animate
loop only while the phase is `intro`. -/
def introComplete (s : RecState) : RecState :=
  if s.phase = Phase.intro then
    { s with phase := Phase.recording, isPlaying := true, audioPaused := false }
  else s

/-- A click on the Record button (src/index.tsx lines 778-794): the button is
rendered only while not recording and is disabled unless an audio track and at
least one lyric cue are loaded; only then does the click reach
`startRecording`. -/
def clickRecord (env : RecEnv) (s : RecState) : RecState :=
  if !s.isRecording && s.hasAudio && decide (0 < s.lyricsCount) then startRecording env s
  else s

/-! ## Helper lemmas: splitting and joining on a separator character -/

theorem splitOnChar_ne_nil (sep : Char) (l : List Char) : splitOnChar sep l ≠ [] := by
  induction l with
  | nil => simp [splitOnChar]
  | cons c cs ih =>
    by_cases hc : c = sep
    · simp [splitOnChar, hc]
    · simp only [splitOnChar, if_neg hc]
      cases h : splitOnChar sep cs with
      | nil => simp
      | cons w ws => simp

theorem joinWithChar_cons_cons (sep : Char) (a b : List Char) (L : List (List Char)) :
    joinWithChar sep (a :: b :: L) = a ++ sep :: joinWithChar sep (b :: L) := rfl

theorem joinWithChar_cons_of_ne_nil (sep : Char) (a : List Char) (L : List (List Char))
    (h : L ≠ []) : joinWithChar sep (a :: L) = a ++ sep :: joinWithChar sep L := by
  cases L with
  | nil => exact absurd rfl h
  | cons b L => rfl

theorem joinWithChar_splitOnChar (sep : Char) (l : List Char) :
    joinWithChar sep (splitOnChar sep l) = l := by
  induction l with
  | nil => rfl
  | cons c cs ih =>
    by_cases hc : c = sep
    · subst hc
      rw [show splitOnChar c (c :: cs) = [] :: splitOnChar c cs from by simp [splitOnChar]]
      rw [joinWithChar_cons_of_ne_nil _ _ _ (splitOnChar_ne_nil c cs), ih]
      rfl
    · simp only [splitOnChar, if_neg hc]
      cases h : splitOnChar sep cs with
      | nil => exact absurd h (splitOnChar_ne_nil sep cs)
      | cons w ws =>
        rw [h] at ih
        cases ws with
        | nil =>
          simpa [joinWithChar] using congrArg (c :: ·) ih
        | cons w2 ws2 =>
          rw [joinWithChar_cons_cons] at ih ⊢
          simpa using congrArg (c :: ·) ih

theorem not_mem_of_mem_splitOnChar (sep : Char) (l : List Char) :
    ∀ w ∈ splitOnChar sep l, sep ∉ w := by
  induction l with
  | nil => intro w hw; simp [splitOnChar] at hw; simp [hw]
  | cons c cs ih =>
    intro w hw
    by_cases hc : c = sep
    · simp only [splitOnChar, if_pos hc, List.mem_cons] at hw
      rcases hw with rfl | hw
      · simp
      · exact ih w hw
    · simp only [splitOnChar, if_neg hc] at hw
      cases h : splitOnChar sep cs with
      | nil => exact absurd h (splitOnChar_ne_nil sep cs)
      | cons v vs =>
        rw [h] at hw
        simp only [List.mem_cons] at hw
        rcases hw with rfl | hw
        · intro hmem
          rcases List.mem_cons.mp hmem with rfl | hmem
          · exact hc rfl
          · exact ih v (h ▸ List.mem_cons_self v vs) hmem
        · exact ih w (h ▸ List.mem_cons_of_mem v hw)

theorem splitOnChar_append_sep (sep : Char) (xs ys : List Char) :
    splitOnChar sep (xs ++ sep :: ys) = splitOnChar sep xs ++ splitOnChar sep ys := by
  induction xs with
  | nil => simp [splitOnChar]
  | cons c cs ih =>
    by_cases hc : c = sep
    · rw [List.cons_append,
        show splitOnChar sep (c :: (cs ++ sep :: ys)) = [] :: splitOnChar sep (cs ++ sep :: ys)
          from by simp [splitOnChar, hc],
        show splitOnChar sep (c :: cs) = [] :: splitOnChar sep cs from by simp [splitOnChar, hc],
        ih]
      rfl
    · cases h : splitOnChar sep cs with
      | nil => exact absurd h (splitOnChar_ne_nil sep cs)
      | cons w ws =>
        rw [List.cons_append]
        simp only [splitOnChar, if_neg hc, ih, h]
        rfl

theorem splitOnChar_of_not_mem (sep : Char) (w : List Char) (h : sep ∉ w) :
    splitOnChar sep w = [w] := by
  induction w with
  | nil => rfl
  | cons c cs ih =>
    simp only [List.mem_cons, not_or] at h
    have h1 : c ≠ sep := fun hcs => h.1 hcs.symm
    simp only [splitOnChar, if_neg h1, ih h.2]

/-! ## Helper lemmas: the greedy wrap loop -/

theorem wrapLoop_ne_nil (measure : List Char → ℚ) (maxWidth : ℚ) :
    ∀ (ws : List (List Char)) (cur : List Char) (acc : List (List Char)),
      wrapLoop measure maxWidth ws cur acc ≠ [] := by
  intro ws
  induction ws with
  | nil => intro cur acc; simp [wrapLoop]
  | cons w ws ih =>
    intro cur acc
    simp only [wrapLoop]
    split
    · exact ih _ _
    · exact ih _ _

theorem wrapLoop_acc (measure : List Char → ℚ) (maxWidth : ℚ) :
    ∀ (ws : List (List Char)) (cur : List Char) (acc : List (List Char)),
      wrapLoop measure maxWidth ws cur acc = acc ++ wrapLoop measure maxWidth ws cur [] := by
  intro ws
  induction ws with
  | nil => intro cur acc; simp [wrapLoop]
  | cons w ws ih =>
    intro cur acc
    simp only [wrapLoop]
    split
    · rw [ih _ acc, ih _ []]
    · rw [ih _ (acc ++ [cur]), ih _ ([] ++ [cur])]
      simp

theorem wrapLoop_mem (measure : List Char → ℚ) (maxWidth : ℚ) :
    ∀ (ws : List (List Char)) (cur : List Char) (l : List Char),
      l ∈ wrapLoop measure maxWidth ws cur [] →
      measure l < maxWidth ∨ l = cur ∨ l ∈ ws := by
  intro ws
  induction ws with
  | nil =>
    intro cur l hl
    simp only [wrapLoop, List.nil_append, List.mem_singleton] at hl
    exact Or.inr (Or.inl hl)
  | cons w ws ih =>
    intro cur l hl
    simp only [wrapLoop] at hl
    split at hl
    · rcases ih _ _ hl with h | h | h
      · exact Or.inl h
      · subst h
        exact Or.inl (by assumption)
      · exact Or.inr (Or.inr (List.mem_cons_of_mem w h))
    · rw [wrapLoop_acc] at hl
      simp only [List.nil_append, List.cons_append, List.mem_cons] at hl
      rcases hl with rfl | hl
      · exact Or.inr (Or.inl rfl)
      · rcases ih _ _ hl with h | h | h
        · exact Or.inl h
        · exact Or.inr (Or.inr (h ▸ List.mem_cons_self w ws))
        · exact Or.inr (Or.inr (List.mem_cons_of_mem w h))

theorem wrapLoop_join (measure : List Char → ℚ) (maxWidth : ℚ) :
    ∀ (ws : List (List Char)) (cur : List Char),
      joinWithChar ' ' (wrapLoop measure maxWidth ws cur []) = joinWithChar ' ' (cur :: ws) := by
  intro ws
  induction ws with
  | nil => intro cur; rfl
  | cons w ws ih =>
    intro cur
    simp only [wrapLoop]
    split
    · rw [ih (cur ++ ' ' :: w)]
      rw [joinWithChar_cons_cons]
      cases ws with
      | nil => simp [joinWithChar]
      | cons w2 ws2 =>
        rw [joinWithChar_cons_cons, joinWithChar_cons_cons]
        simp
    · rw [wrapLoop_acc]
      simp only [List.nil_append, List.singleton_append]
      rw [joinWithChar_cons_of_ne_nil _ _ _ (wrapLoop_ne_nil measure maxWidth ws w []),
        ih w, joinWithChar_cons_cons]

theorem wrapLoop_words (measure : List Char → ℚ) (maxWidth : ℚ) :
    ∀ (ws : List (List Char)) (cur : List Char), (∀ w ∈ ws, ' ' ∉ w) →
      ((wrapLoop measure maxWidth ws cur []).map (splitOnChar ' ')).flatten
        = splitOnChar ' ' cur ++ ws := by
  intro ws
  induction ws with
  | nil => intro cur _; simp [wrapLoop]
  | cons w ws ih =>
    intro cur hws
    have hw : ' ' ∉ w := hws w (List.mem_cons_self w ws)
    have hws2 : ∀ v ∈ ws, ' ' ∉ v := fun v hv => hws v (List.mem_cons_of_mem w hv)
    simp only [wrapLoop]
    split
    · rw [ih _ hws2, splitOnChar_append_sep, splitOnChar_of_not_mem _ _ hw]
      simp
    · rw [wrapLoop_acc]
      simp only [List.nil_append, List.singleton_append, List.map_cons, List.flatten_cons]
      rw [ih _ hws2, splitOnChar_of_not_mem _ _ hw]
      simp

/-! ## Helper lemmas: takeWhile and the active-index scan -/

theorem takeWhileLen_le {a : Type} (p : a → Bool) : ∀ l : List a,
    (l.takeWhile p).length ≤ l.length := by
  intro l
  induction l with
  | nil => simp
  | cons x xs ih =>
    by_cases h : p x = true
    · simpa [List.takeWhile_cons, h] using ih
    · simp [List.takeWhile_cons, h]

theorem takeWhileLen_mono {a : Type} (p q : a → Bool)
    (hpq : ∀ x, p x = true → q x = true) : ∀ l : List a,
    (l.takeWhile p).length ≤ (l.takeWhile q).length := by
  intro l
  induction l with
  | nil => simp
  | cons x xs ih =>
    by_cases h : p x = true
    · simpa [List.takeWhile_cons, h, hpq x h] using ih
    · simp [List.takeWhile_cons, h]

theorem takeWhile_pred_of_lt {a : Type} (p : a → Bool) : ∀ (l : List a) (k : ℕ)
    (hk : k < (l.takeWhile p).length) (hkl : k < l.length),
    p (l.get ⟨k, hkl⟩) = true := by
  intro l
  induction l with
  | nil => intro k hk; simp at hk
  | cons x xs ih =>
    intro k hk hkl
    by_cases h : p x = true
    · cases k with
      | zero => simpa using h
      | succ k =>
        simp only [List.takeWhile_cons, if_pos h, List.length_cons,
          Nat.succ_lt_succ_iff] at hk
        exact ih k hk (by simpa using hkl)
    · simp [List.takeWhile_cons, h] at hk

theorem lt_takeWhileLen_of_pred (t : ℚ) : ∀ (l : List LyricLine),
    List.Pairwise (fun c d => c.time ≤ d.time) l →
    ∀ (k : ℕ) (hk : k < l.length), (l.get ⟨k, hk⟩).time ≤ t →
    k < (l.takeWhile (fun c => decide (c.time ≤ t))).length := by
  intro l
  induction l with
  | nil => intro _ k hk; simp at hk
  | cons x xs ih =>
    intro hsort k hk hkt
    rcases List.pairwise_cons.mp hsort with ⟨hx, hxs⟩
    cases k with
    | zero =>
      have hxt : x.time ≤ t := by simpa using hkt
      simp [List.takeWhile_cons, hxt]
    | succ k =>
      have hk2 : k < xs.length := by simpa using hk
      have hget : (xs.get ⟨k, hk2⟩).time ≤ t := by simpa using hkt
      have hxt : x.time ≤ t :=
        le_trans (hx _ (List.get_mem xs k hk2)) hget
      simp only [List.takeWhile_cons, decide_eq_true_eq, if_pos hxt, List.length_cons,
        Nat.succ_lt_succ_iff]
      exact ih hxs k hk2 hget

theorem activeIndexAux_eq (t : ℚ) : ∀ (ls : List LyricLine) (i acc : ℤ),
    activeIndexAux t ls i acc =
      if (ls.takeWhile (fun c => decide (c.time ≤ t))).length = 0 then acc
      else i + ((ls.takeWhile (fun c => decide (c.time ≤ t))).length : ℤ) - 1 := by
  intro ls
  induction ls with
  | nil => intro i acc; simp [activeIndexAux]
  | cons l ls ih =>
    intro i acc
    by_cases h : l.time ≤ t
    · rw [show activeIndexAux t (l :: ls) i acc = activeIndexAux t ls (i + 1) i from by
        simp [activeIndexAux, h]]
      rw [ih]
      rw [show (l :: ls).takeWhile (fun c => decide (c.time ≤ t))
            = l :: ls.takeWhile (fun c => decide (c.time ≤ t)) from by
        simp [List.takeWhile_cons, h]]
      simp only [List.length_cons]
      by_cases hk : (ls.takeWhile (fun c => decide (c.time ≤ t))).length = 0
      · rw [if_pos hk, if_neg (by omega), hk]
        push_cast
        ring
      · rw [if_neg hk, if_neg (by omega)]
        push_cast
        ring
    · simp [activeIndexAux, h, List.takeWhile_cons]

theorem activeIndex_eq (t : ℚ) (lys : List LyricLine) :
    activeIndex t lys =
      if (lys.takeWhile (fun c => decide (c.time ≤ t))).length = 0 then 0
      else ((lys.takeWhile (fun c => decide (c.time ≤ t))).length : ℤ) - 1 := by
  rw [activeIndex, activeIndexAux_eq]
  simp

/-- C1 (as amended): over a sorted timeline the active-index scan returns the
index of the last cue whose time is at most `t` when one exists, returns 0
when no cue qualifies, and is monotone non-decreasing in `t`. -/
theorem C1_activeIndex_spec (t tLater : ℚ) (lys : List LyricLine)
    (hsort : List.Pairwise (fun c d => c.time ≤ d.time) lys) (hle : t ≤ tLater) :
    ((∀ c ∈ lys, ¬ c.time ≤ t) → activeIndex t lys = 0)
    ∧ (∀ (k : ℕ) (hk : k < lys.length), (lys.get ⟨k, hk⟩).time ≤ t →
        ∃ (m : ℕ) (hm : m < lys.length),
          activeIndex t lys = (m : ℤ)
          ∧ (lys.get ⟨m, hm⟩).time ≤ t
          ∧ ∀ (j : ℕ) (hj : j < lys.length), (lys.get ⟨j, hj⟩).time ≤ t → j ≤ m)
    ∧ activeIndex t lys ≤ activeIndex tLater lys := by
  refine ⟨?_, ?_, ?_⟩
  · intro hno
    cases lys with
    | nil => rfl
    | cons x xs =>
      have hx : ¬ x.time ≤ t := hno x (List.mem_cons_self x xs)
      rw [activeIndex_eq]
      simp [List.takeWhile_cons, hx]
  · intro k hk hkt
    have hklt := lt_takeWhileLen_of_pred t lys hsort k hk hkt
    set L := (lys.takeWhile (fun c => decide (c.time ≤ t))).length with hL
    have hL1 : 1 ≤ L := by omega
    have hLlen : L ≤ lys.length := takeWhileLen_le _ lys
    have hmlt : L - 1 < lys.length := by omega
    refine ⟨L - 1, hmlt, ?_, ?_, ?_⟩
    · rw [activeIndex_eq, ← hL, if_neg (by omega)]
      push_cast [Nat.cast_sub hL1]
      ring
    · have := takeWhile_pred_of_lt (fun c => decide (c.time ≤ t)) lys (L - 1)
        (by omega) hmlt
      simpa using this
    · intro j hj hjt
      have := lt_takeWhileLen_of_pred t lys hsort j hj hjt
      omega
  · have hmono : (lys.takeWhile (fun c => decide (c.time ≤ t))).length
        ≤ (lys.takeWhile (fun c => decide (c.time ≤ tLater))).length := by
      refine takeWhileLen_mono _ _ ?_ lys
      intro c hc
      simp only [decide_eq_true_eq] at hc ⊢
      exact le_trans hc hle
    rw [activeIndex_eq, activeIndex_eq]
    by_cases h1 : (lys.takeWhile (fun c => decide (c.time ≤ t))).length = 0
    · rw [if_pos h1]
      by_cases h2 : (lys.takeWhile (fun c => decide (c.time ≤ tLater))).length = 0
      · rw [if_pos h2]
      · rw [if_neg h2]
        omega
    · rw [if_neg h1, if_neg (by omega)]
      omega

/-- Witness for C1: monotonicity at a concrete sorted two-cue timeline. -/
theorem C1_witness :
    activeIndex 1 [⟨1, ['a']⟩, ⟨2, ['b']⟩] ≤ activeIndex 2 [⟨1, ['a']⟩, ⟨2, ['b']⟩] :=
  (C1_activeIndex_spec 1 2 [⟨1, ['a']⟩, ⟨2, ['b']⟩]
    (by norm_num [List.pairwise_cons]) (by norm_num)).2.2

/-- C1 counterexample: on the empty timeline the scan returns 0, not the
claimed -1/no-index sentinel (the initial value `activeIndex = 0` is simply
never updated). -/
theorem C1_counterexample : activeIndex 5 [] = 0 ∧ activeIndex 5 [] ≠ -1 := by
  constructor
  · rfl
  · intro h
    exact absurd h (by with_unfolding_all decide)

/-! ## Helper lemmas: the scroll interpolator -/

theorem scrollStep_snap_far (a s : ℚ) (h : |a - s| > 10) : scrollStep a s = a := by
  simp only [scrollStep]
  rw [if_pos h]

theorem scrollStep_snap_near (a s : ℚ) (h1 : ¬ |a - s| > 10) (h2 : |a - s| < 0.001) :
    scrollStep a s = a := by
  simp only [scrollStep]
  rw [if_neg h1, if_pos h2]

theorem scrollStep_damp (a s : ℚ) (h1 : ¬ |a - s| > 10) (h2 : ¬ |a - s| < 0.001) :
    scrollStep a s = s + (a - s) * 0.1 := by
  simp only [scrollStep]
  rw [if_neg h1, if_neg h2]

theorem scrollIter_formula : ∀ n : ℕ, n ≤ 76 →
    scrollIter 3 0 n = 3 - 3 * (9/10 : ℚ) ^ n := by
  intro n
  induction n with
  | zero => intro _; norm_num [scrollIter]
  | succ n ih =>
    intro hn
    have hq0 : (0 : ℚ) ≤ 9/10 := by norm_num
    have hq1 : (9/10 : ℚ) ≤ 1 := by norm_num
    have hpow1 : (9/10 : ℚ) ^ n ≤ 1 := pow_le_one₀ hq0 hq1
    have hpowpos : (0 : ℚ) < (9/10 : ℚ) ^ n := by positivity
    have hlow : (1/3000 : ℚ) ≤ (9/10 : ℚ) ^ n := by
      calc (1/3000 : ℚ) ≤ (9/10 : ℚ) ^ 75 := by norm_num
        _ ≤ (9/10 : ℚ) ^ n := pow_le_pow_of_le_one hq0 hq1 (by omega)
    have habs : |(3 : ℚ) - (3 - 3 * (9/10 : ℚ) ^ n)| = 3 * (9/10 : ℚ) ^ n := by
      rw [show (3 : ℚ) - (3 - 3 * (9/10 : ℚ) ^ n) = 3 * (9/10 : ℚ) ^ n from by ring]
      exact abs_of_pos (by positivity)
    rw [scrollIter, ih (by omega), scrollStep_damp]
    · rw [show (0.1 : ℚ) = 1/10 from by norm_num, pow_succ]
      ring
    · rw [habs]
      intro hgt
      nlinarith
    · rw [habs]
      intro hlt
      rw [show (0.001 : ℚ) = 1/1000 from by norm_num] at hlt
      nlinarith

theorem scrollIter_settles : ∀ n : ℕ, 77 ≤ n → scrollIter 3 0 n = 3 := by
  have h76 := scrollIter_formula 76 (le_refl 76)
  have hsmall : |(3 : ℚ) - (3 - 3 * (9/10 : ℚ) ^ 76)| < 0.001 := by
    rw [show (3 : ℚ) - (3 - 3 * (9/10 : ℚ) ^ 76) = 3 * (9/10 : ℚ) ^ 76 from by ring,
      abs_of_pos (by positivity)]
    norm_num
  have hnotfar : ¬ |(3 : ℚ) - (3 - 3 * (9/10 : ℚ) ^ 76)| > 10 := by
    intro hgt
    rw [gt_iff_lt] at hgt
    have hlt : |(3 : ℚ) - (3 - 3 * (9/10 : ℚ) ^ 76)| < 1/1000 := by
      rw [show (0.001 : ℚ) = 1/1000 from by norm_num] at hsmall
      exact hsmall
    linarith
  have h77 : scrollIter 3 0 77 = 3 := by
    rw [show (77 : ℕ) = 76 + 1 from rfl, scrollIter, h76]
    exact scrollStep_snap_near _ _ hnotfar hsmall
  intro n hn
  induction n, hn using Nat.le_induction with
  | base => exact h77
  | succ n hn ih =>
    rw [scrollIter, ih]
    refine scrollStep_snap_near _ _ ?_ ?_ <;> norm_num

/-- C4: the scroll-interpolator step snaps when the gap exceeds 10 or drops
below 0.001 and otherwise damps by a factor 0.1 toward the target; from 0
with constant target 3 it reaches (exactly) 3 within 77 ticks and stays
there, and a single step across a gap of 15 snaps immediately. -/
theorem C4_scrollStep_spec (a s : ℚ) (n : ℕ) (hn : 77 ≤ n) :
    (|a - s| > 10 → scrollStep a s = a)
    ∧ (|a - s| < 0.001 → scrollStep a s = a)
    ∧ (¬ |a - s| > 10 → ¬ |a - s| < 0.001 → scrollStep a s = s + (a - s) * 0.1)
    ∧ scrollIter 3 0 n = 3
    ∧ |scrollIter 3 0 n - 3| < 0.001
    ∧ scrollStep 15 0 = 15 := by
  refine ⟨scrollStep_snap_far a s, ?_, scrollStep_damp a s, scrollIter_settles n hn, ?_, ?_⟩
  · intro h2
    by_cases h1 : |a - s| > 10
    · exact scrollStep_snap_far a s h1
    · exact scrollStep_snap_near a s h1 h2
  · rw [scrollIter_settles n hn]
    norm_num
  · refine scrollStep_snap_far 15 0 ?_
    norm_num

/-- Witness for C4: the snap at gap 15 and the convergence after 77 ticks,
instantiated concretely. -/
theorem C4_witness : scrollStep 15 0 = 15 ∧ scrollIter 3 0 77 = 3 :=
  ⟨(C4_scrollStep_spec 15 0 77 le_rfl).1 (by norm_num),
   (C4_scrollStep_spec 0 0 77 le_rfl).2.2.2.1⟩

/-! ## C8 and C10: the greedy word wrap -/

/-- C8: for every text, width bound and measure function monotone under
appending a word, every produced line either measures below `maxWidth` or is
a single word of the input, and the lines decompose exactly into the input's
words in order (no word is split across lines). -/
theorem C8_wrap_width_no_split (measure : List Char → ℚ) (text : List Char) (maxWidth : ℚ)
    (hmono : ∀ s w : List Char, measure s ≤ measure (s ++ ' ' :: w)) :
    (∀ l ∈ getWrappedLines measure text maxWidth,
        measure l < maxWidth ∨ l ∈ splitOnChar ' ' text)
    ∧ ((getWrappedLines measure text maxWidth).map (splitOnChar ' ')).flatten
        = splitOnChar ' ' text := by
  unfold getWrappedLines
  cases h : splitOnChar ' ' text with
  | nil => exact absurd h (splitOnChar_ne_nil ' ' text)
  | cons w ws =>
    constructor
    · intro l hl
      rcases wrapLoop_mem measure maxWidth ws w l hl with hlt | rfl | hmem
      · exact Or.inl hlt
      · exact Or.inr (List.mem_cons_self l ws)
      · exact Or.inr (List.mem_cons_of_mem w hmem)
    · have hfree : ∀ v ∈ ws, ' ' ∉ v := fun v hv =>
        not_mem_of_mem_splitOnChar ' ' text v (h ▸ List.mem_cons_of_mem w hv)
      have hwfree : ' ' ∉ w :=
        not_mem_of_mem_splitOnChar ' ' text w (h ▸ List.mem_cons_self w ws)
      rw [wrapLoop_words measure maxWidth ws w hfree, splitOnChar_of_not_mem _ _ hwfree]
      rfl

/-- Witness for C8 at a concrete measure (character count), text and width. -/
theorem C8_witness :
    (∀ l ∈ getWrappedLines (fun l => (l.length : ℚ)) "ab cd ef".toList 6,
        ((fun l : List Char => (l.length : ℚ)) l < 6 ∨ l ∈ splitOnChar ' ' "ab cd ef".toList))
    ∧ ((getWrappedLines (fun l => (l.length : ℚ)) "ab cd ef".toList 6).map
        (splitOnChar ' ')).flatten = splitOnChar ' ' "ab cd ef".toList :=
  C8_wrap_width_no_split (fun l => (l.length : ℚ)) "ab cd ef".toList 6
    (by
      intro s w
      push_cast [List.length_append]
      linarith)

/-- C10: the wrap always returns at least one line, and joining the lines
with single spaces reproduces the input text exactly. -/
theorem C10_wrap_join (measure : List Char → ℚ) (text : List Char) (maxWidth : ℚ) :
    getWrappedLines measure text maxWidth ≠ []
    ∧ joinWithChar ' ' (getWrappedLines measure text maxWidth) = text := by
  unfold getWrappedLines
  cases h : splitOnChar ' ' text with
  | nil => exact absurd h (splitOnChar_ne_nil ' ' text)
  | cons w ws =>
    refine ⟨wrapLoop_ne_nil measure maxWidth ws w [], ?_⟩
    rw [wrapLoop_join measure maxWidth ws w, ← h, joinWithChar_splitOnChar]

/-! ## Helper lemmas: the LRC parser -/

theorem tagTime_nonneg (tp : TagParts) : 0 ≤ tagTime tp := by
  unfold tagTime
  have hd : (0 : ℚ) < (if tp.fracDigits = 3 then 1000 else 100) := by split <;> norm_num
  have h1 : (0 : ℚ) ≤ (tp.minutes : ℚ) * 60 := by positivity
  have h2 : (0 : ℚ) ≤ (tp.seconds : ℚ) := by positivity
  have h3 : (0 : ℚ) ≤ (tp.fracValue : ℚ) / (if tp.fracDigits = 3 then 1000 else 100) :=
    div_nonneg (by positivity) (le_of_lt hd)
  linarith

theorem lineToCue_props (l : List Char) (c : LyricLine) (h : lineToCue l = some c) :
    c.text ≠ [] ∧ 0 ≤ c.time := by
  unfold lineToCue at h
  cases hex : execTag l with
  | none => rw [hex] at h; cases h
  | some x =>
    obtain ⟨bef, tp, aft⟩ := x
    rw [hex] at h
    by_cases ht : jsTrim (bef ++ aft) = []
    · simp only [ht, if_pos] at h
      cases h
    · simp only [if_neg ht] at h
      obtain rfl := (Option.some.inj h).symm
      exact ⟨ht, tagTime_nonneg tp⟩

/-- C2: a line in which the timestamp tag matches, and whose remaining text
(tag stripped, then trimmed) is non-empty, parses to exactly one cue whose
time is `MM*60 + SS + frac/d` with `d = 1000` for a three-digit fractional
group and `d = 100` for a two-digit one, and whose text is the trimmed
remainder. -/
theorem C2_parseLrc_single_line (line bef aft : List Char) (tp : TagParts)
    (hnl : '\n' ∉ line)
    (hexec : execTag line = some (bef, tp, aft))
    (htext : jsTrim (bef ++ aft) ≠ []) :
    parseLrc line =
      [⟨(tp.minutes : ℚ) * 60 + (tp.seconds : ℚ)
          + (tp.fracValue : ℚ) / (if tp.fracDigits = 3 then 1000 else 100),
        jsTrim (bef ++ aft)⟩] := by
  have hcue : lineToCue line = some ⟨tagTime tp, jsTrim (bef ++ aft)⟩ := by
    unfold lineToCue
    rw [hexec]
    simp only [if_neg htext]
  unfold parseLrc
  rw [splitOnChar_of_not_mem _ _ hnl]
  rw [show [line].filterMap lineToCue = [(⟨tagTime tp, jsTrim (bef ++ aft)⟩ : LyricLine)]
    from by simp [List.filterMap_cons, hcue]]
  exact List.perm_singleton.mp (List.mergeSort_perm _ lrcLe)

/-- Witness for C2: the two spec examples, obtained from the theorem. -/
theorem C2_witness :
    parseLrc "[00:01.50]Hello".toList = [⟨3/2, "Hello".toList⟩]
    ∧ parseLrc "[00:01:500]Hi".toList = [⟨3/2, "Hi".toList⟩] := by
  constructor
  · rw [C2_parseLrc_single_line "[00:01.50]Hello".toList [] "Hello".toList ⟨0, 1, 50, 2⟩
      (by decide) (by decide) (by decide)]
    with_unfolding_all decide
  · rw [C2_parseLrc_single_line "[00:01:500]Hi".toList [] "Hi".toList ⟨0, 1, 500, 3⟩
      (by decide) (by decide) (by decide)]
    with_unfolding_all decide

/-- C3: on any input `parseLrc` (a total function) returns a sequence that is
non-decreasing in time, every returned cue has non-empty text and
non-negative time, and the output is exactly (a permutation, by the stable
sort, of) the cues of the lines that match the tag with non-empty trimmed
text — all other lines contribute nothing. -/
theorem C3_parseLrc_robust (content : List Char) :
    List.Pairwise (fun a b => a.time ≤ b.time) (parseLrc content)
    ∧ (∀ c ∈ parseLrc content, c.text ≠ [] ∧ 0 ≤ c.time)
    ∧ (parseLrc content).Perm ((splitOnChar '\n' content).filterMap lineToCue) := by
  have hperm : (parseLrc content).Perm ((splitOnChar '\n' content).filterMap lineToCue) :=
    List.mergeSort_perm _ lrcLe
  refine ⟨?_, ?_, hperm⟩
  · have htrans : ∀ a b c : LyricLine, lrcLe a b = true → lrcLe b c = true →
        lrcLe a c = true := by
      intro a b c hab hbc
      simp only [lrcLe, decide_eq_true_eq] at hab hbc ⊢
      exact le_trans hab hbc
    have htotal : ∀ a b : LyricLine, (lrcLe a b || lrcLe b a) = true := by
      intro a b
      simp only [lrcLe, Bool.or_eq_true, decide_eq_true_eq]
      exact le_total a.time b.time
    have hs := List.sorted_mergeSort htrans htotal
      ((splitOnChar '\n' content).filterMap lineToCue)
    exact hs.imp fun hab => by
      simpa only [lrcLe, decide_eq_true_eq] using hab
  · intro c hc
    obtain ⟨line, _, hsome⟩ := List.mem_filterMap.mp (hperm.mem_iff.mp hc)
    exact lineToCue_props line c hsome

/-- Witness for C3 at a concrete parsed cue. -/
theorem C3_witness :
    ((⟨3/2, "Hello".toList⟩ : LyricLine).text ≠ []
      ∧ (0 : ℚ) ≤ (⟨3/2, "Hello".toList⟩ : LyricLine).time) :=
  (C3_parseLrc_robust "[00:01.50]Hello".toList).2.1 ⟨3/2, "Hello".toList⟩
    (by with_unfolding_all decide)

/-- Witness for C10 at a concrete measure, text and width. -/
theorem C10_witness :
    getWrappedLines (fun l => (l.length : ℚ)) "ab cd ef".toList 6 ≠ []
    ∧ joinWithChar ' ' (getWrappedLines (fun l => (l.length : ℚ)) "ab cd ef".toList 6)
      = "ab cd ef".toList :=
  C10_wrap_join (fun l => (l.length : ℚ)) "ab cd ef".toList 6

/-! ## C7: lyric-stack colour interpolation -/

/-- C7 (as amended): for a cue at distance `i - smoothIndex` from the scroll
position, the rendered colour is the primary-to-secondary interpolation at
normalized factor `|distance| * 1.66` while `|distance| < 0.6`, and the
secondary colour otherwise. -/
theorem C7_lineStyle_color (cosPi : ℚ → ℚ) (settings : AppSettings) (i : ℕ)
    (smoothActiveIndex lyricsOpacity : ℚ) :
    (|(i : ℚ) - smoothActiveIndex| < 0.6 →
      (lineStyle cosPi settings i smoothActiveIndex lyricsOpacity).color
        = interpolateColor settings.primaryColor settings.secondaryColor
            (|(i : ℚ) - smoothActiveIndex| * 1.66))
    ∧ (0.6 ≤ |(i : ℚ) - smoothActiveIndex| →
      (lineStyle cosPi settings i smoothActiveIndex lyricsOpacity).color
        = hexToRgb settings.secondaryColor) := by
  constructor
  · intro h
    simp only [lineStyle]
    rw [if_pos h]
  · intro h
    simp only [lineStyle]
    rw [if_neg (not_lt.mpr h)]

/-- Witness for C7 at concrete distances 1/2 (blend) and 7/2 (secondary). -/
theorem C7_witness :
    (lineStyle (fun _ => 1) DEFAULT_SETTINGS 2 (3/2) 1).color
      = interpolateColor DEFAULT_SETTINGS.primaryColor DEFAULT_SETTINGS.secondaryColor
          (|((2 : ℕ) : ℚ) - 3/2| * 1.66)
    ∧ (lineStyle (fun _ => 1) DEFAULT_SETTINGS 5 (3/2) 1).color
      = hexToRgb DEFAULT_SETTINGS.secondaryColor :=
  ⟨(C7_lineStyle_color (fun _ => 1) DEFAULT_SETTINGS 2 (3/2) 1).1
      (by with_unfolding_all decide),
   (C7_lineStyle_color (fun _ => 1) DEFAULT_SETTINGS 5 (3/2) 1).2
      (by with_unfolding_all decide)⟩

/-- C7 counterexample: with the default colours, at distance 1/2 the colour
the code computes (factor `|d| * 1.66`) differs from the colour the claim
states (factor `|d| * 1.667`): the red channels round to 132 and 133. -/
theorem C7_counterexample :
    (lineStyle (fun _ => 1) DEFAULT_SETTINGS 1 (1/2) 1).color
      ≠ interpolateColor DEFAULT_SETTINGS.primaryColor DEFAULT_SETTINGS.secondaryColor
          (|((1 : ℕ) : ℚ) - 1/2| * 1.667) := by
  with_unfolding_all decide

/-! ## C9: determinism of the bokeh field -/

/-- C9: `drawBokeh` draws exactly 15 particles, and two invocations with
equal arguments (and the same host trigonometric functions) produce equal
particle lists — the generator has no randomness input or hidden state. -/
theorem C9_drawBokeh_deterministic (sin cos : ℚ → ℚ) (w h t : ℚ) (st : AppSettings)
    (w2 h2 t2 : ℚ) (st2 : AppSettings)
    (hw : w = w2) (hh : h = h2) (ht : t = t2) (hst : st = st2) :
    drawBokeh sin cos w h t st = drawBokeh sin cos w2 h2 t2 st2
    ∧ (drawBokeh sin cos w h t st).length = 15 := by
  subst hw
  subst hh
  subst ht
  subst hst
  exact ⟨rfl, by simp [drawBokeh]⟩

/-- Witness for C9 at concrete arguments. -/
theorem C9_witness :
    drawBokeh (fun _ => 0) (fun _ => 0) 1920 1080 5 DEFAULT_SETTINGS
      = drawBokeh (fun _ => 0) (fun _ => 0) 1920 1080 5 DEFAULT_SETTINGS
    ∧ (drawBokeh (fun _ => 0) (fun _ => 0) 1920 1080 5 DEFAULT_SETTINGS).length = 15 :=
  C9_drawBokeh_deterministic (fun _ => 0) (fun _ => 0) 1920 1080 5 DEFAULT_SETTINGS
    1920 1080 5 DEFAULT_SETTINGS rfl rfl rfl rfl

/-! ## C5 and C6: the recording session controller -/

/-- An idle controller state with audio and one cue loaded. -/
def idleState : RecState where
  phase := Phase.idle
  isRecording := false
  isPlaying := false
  hasAudio := true
  lyricsCount := 1
  smoothIndex := 0
  oscRunning := false
  recorderActive := false
  audioTime := 2
  audioPaused := true
  hasDownloadUrl := false
  alerted := false

/-- Environment in which the audio-context resume step fails. -/
def envResumeFailure : RecEnv where
  hasCanvas := true
  ctxSuspended := true
  resumeFails := true
  recorderFails := false

/-- Environment in which the MediaRecorder setup step fails. -/
def envRecorderFailure : RecEnv where
  hasCanvas := true
  ctxSuspended := false
  resumeFails := false
  recorderFails := true

/-- C5 counterexample: from idle, a failing audio-context resume does not
abort the attempt — the phase still transitions to `intro`; and a failing
recorder setup, while leaving the phase `idle`, leaves the silence
oscillator (started in step 5) running, a partial side effect. -/
theorem C5_counterexample :
    (startRecording envResumeFailure idleState).phase = Phase.intro
    ∧ (startRecording envRecorderFailure idleState).phase = Phase.idle
    ∧ (startRecording envRecorderFailure idleState).oscRunning = true
    ∧ idleState.oscRunning = false
    ∧ idleState.phase = Phase.idle :=
  ⟨rfl, rfl, rfl, rfl, rfl⟩

/-- C5 (as amended): if the recorder-setup step fails, the start attempt
aborts with a user-facing message, no phase transition occurs, no recorder is
started and the controller stays idle — but the already-started silence
oscillator is left running; a failure of the audio-context resume step is
caught and ignored and does not abort the attempt (the outcome is identical
with and without it). -/
theorem C5_startRecording_failure (env : RecEnv) (s : RecState)
    (hidle : s.phase = Phase.idle) (hnr : s.isRecording = false)
    (hcv : env.hasCanvas = true) (hau : s.hasAudio = true) :
    startRecording { env with resumeFails := true } s
      = startRecording { env with resumeFails := false } s
    ∧ (env.recorderFails = true →
        (startRecording env s).phase = Phase.idle
        ∧ (startRecording env s).isRecording = false
        ∧ (startRecording env s).recorderActive = s.recorderActive
        ∧ (startRecording env s).alerted = true
        ∧ (startRecording env s).oscRunning = true) := by
  constructor
  · rfl
  · intro hrf
    have hcond : (!env.hasCanvas || !s.hasAudio) = false := by rw [hcv, hau]; rfl
    refine ⟨?_, ?_, ?_, ?_, ?_⟩ <;> simp [startRecording, hcond, hrf, hidle, hnr]

/-- Witness for C5 at the concrete idle state and failing-recorder
environment. -/
theorem C5_witness :
    (startRecording envRecorderFailure idleState).phase = Phase.idle
    ∧ (startRecording envRecorderFailure idleState).alerted = true :=
  have h := (C5_startRecording_failure envRecorderFailure idleState rfl rfl rfl rfl).2 rfl
  ⟨h.1, h.2.2.2.1⟩

/-- C6: at the boundary through which the start operation is invoked, a
click is a no-op unless the controller is not recording with audio and at
least one cue loaded; and every controller event preserves the coupling
`isRecording = true ↔ phase ≠ idle`, so while a session is active (phase not
idle) the click cannot start a second one. -/
theorem C6_clickRecord_guard (env : RecEnv) (s : RecState)
    (hinv : s.isRecording = true ↔ s.phase ≠ Phase.idle) :
    (s.phase ≠ Phase.idle → clickRecord env s = s)
    ∧ (s.hasAudio = false ∨ s.lyricsCount = 0 → clickRecord env s = s)
    ∧ ((clickRecord env s).isRecording = true ↔ (clickRecord env s).phase ≠ Phase.idle)
    ∧ ((stopRecording s).isRecording = true ↔ (stopRecording s).phase ≠ Phase.idle)
    ∧ ((introComplete s).isRecording = true ↔ (introComplete s).phase ≠ Phase.idle) := by
  refine ⟨?_, ?_, ?_, ?_, ?_⟩
  · intro hph
    have hrec : s.isRecording = true := hinv.mpr hph
    simp [clickRecord, hrec]
  · intro h
    rcases h with h | h
    · simp [clickRecord, h]
    · simp [clickRecord, h]
  · by_cases hg : (!s.isRecording && s.hasAudio && decide (0 < s.lyricsCount)) = true
    · have hrec : s.isRecording = false := by
        cases hr : s.isRecording
        · rfl
        · rw [hr] at hg
          simp at hg
      have hph : s.phase = Phase.idle := by
        by_contra hne
        rw [hinv.mpr hne] at hrec
        cases hrec
      simp only [clickRecord, hg, if_true]
      unfold startRecording
      by_cases hcv : (!env.hasCanvas || !s.hasAudio) = true
      · rw [if_pos hcv]
        exact hinv
      · rw [if_neg hcv]
        by_cases hrf : env.recorderFails = true
        · rw [if_pos hrf]
          simp [hrec, hph]
        · rw [if_neg hrf]
          simp
    · simp only [clickRecord, hg, if_false]
      exact hinv
  · by_cases hra : s.recorderActive = true
    · simp [stopRecording, hra]
    · have hra2 : s.recorderActive = false := by
        cases hr : s.recorderActive
        · rfl
        · exact absurd hr hra
      simp only [stopRecording, hra2, Bool.false_eq_true, if_false]
      exact hinv
  · by_cases hph : s.phase = Phase.intro
    · have hrec : s.isRecording = true := hinv.mpr (by rw [hph]; simp)
      simp [introComplete, hph, hrec]
    · simp only [introComplete, if_neg hph]
      exact hinv

/-- Witness for C6: a click while the phase is `intro` changes nothing. -/
theorem C6_witness :
    clickRecord envRecorderFailure
        { idleState with phase := Phase.intro, isRecording := true }
      = { idleState with phase := Phase.intro, isRecording := true } :=
  (C6_clickRecord_guard envRecorderFailure
      { idleState with phase := Phase.intro, isRecording := true }
      (by simp)).1 (by simp)

end LyricFlow
